import Mathlib

/-!
Verification development for the `redis-rs` single-node datastore.

Shallow embedding conventions:
  - Rust byte slices (`&[u8]`, `Vec<u8>`, `Bytes`) and Rust `String`s are
    modelled as `List Nat` of byte values.  Where the source calls
    `String::from_utf8` the embedding keeps the raw bytes; every concrete
    input used in a theorem below is plain ASCII, where the two views agree
    byte for byte.
  - Rust `usize`/`i64` parsing and formatting are modelled over `Nat`/`Int`
    without an overflow bound; all concrete inputs are far below `2^63`.
  - `std::time::Instant` is modelled as an abstract tick counter `Nat`.
  - `f64` scores are modelled as `Int`; every score used in a theorem is a
    small integer, which `f64` represents exactly, and no division or
    rounding occurs in the modelled code paths.
  - Rust panics (`unwrap` on `Err`, out-of-bounds slicing, `unreachable!`)
    are modelled by an explicit `panicked` result constructor.
-/

namespace Redis

/-- Byte strings: Rust `Vec<u8>` / `Bytes` / (UTF-8 views of) `String`. -/
abbrev Str := List Nat

/-- ASCII decimal digit test, as `u8::is_ascii_digit`. -/
def isDigitB (b : Nat) : Bool := 48 ≤ b && b ≤ 57

/-- ASCII letter test, as `u8::is_ascii_alphabetic`. -/
def isAlphaB (b : Nat) : Bool := (65 ≤ b && b ≤ 90) || (97 ≤ b && b ≤ 122)

/-- ASCII alphanumeric test, as `u8::is_ascii_alphanumeric`. -/
def isAlnumB (b : Nat) : Bool := isDigitB b || isAlphaB b

/-- Position of the first `\r\n` window, as `frame.rs`'s `index_of(data, CRLF)`. -/
def indexOfCRLF : List Nat → Option Nat
  | [] => none
  | [_] => none
  | a :: b :: rest =>
    if a = 13 ∧ b = 10 then some 0
    else (indexOfCRLF (b :: rest)).map (· + 1)

/-- Whether the byte string ends with `\r\n`, as `data.ends_with(CRLF)`. -/
def endsWithCRLF (xs : List Nat) : Bool :=
  match xs.reverse with
  | 10 :: 13 :: _ => true
  | _ => false

/-- Value of a nonempty all-digit byte string, `none` otherwise. -/
def decDigits? (bs : List Nat) : Option Nat :=
  if bs = [] then none
  else if bs.all isDigitB then
    some (bs.foldl (fun acc b => acc * 10 + (b - 48)) 0)
  else none

/-- Rust `str::parse::<usize>` on bytes: optional leading `+`, then digits.
(The `u64` overflow bound is not modelled.) -/
def decToNat? (bs : List Nat) : Option Nat :=
  match bs with
  | [] => none
  | b :: rest => if b = 43 then decDigits? rest else decDigits? (b :: rest)

/-- Rust `str::parse::<i64>` on bytes: optional sign, then digits.
(The `i64` overflow bound is not modelled.) -/
def decToInt? (bs : List Nat) : Option Int :=
  match bs with
  | [] => none
  | b :: rest =>
    if b = 43 then (decDigits? rest).map (fun n => (n : Int))
    else if b = 45 then (decDigits? rest).map (fun n => -(n : Int))
    else (decDigits? (b :: rest)).map (fun n => (n : Int))

/-- Decimal digits of `n`, most significant first, as ASCII bytes; the first
argument is recursion fuel (adequate whenever `n ≤ fuel`). -/
def natDecAux : Nat → Nat → List Nat
  | 0, n => [48 + n % 10]
  | fuel + 1, n =>
    if n < 10 then [48 + n]
    else natDecAux fuel (n / 10) ++ [48 + n % 10]

/-- ASCII decimal representation of a `Nat`, as Rust `usize::to_string`. -/
def natToDecimal (n : Nat) : List Nat := natDecAux n n

/-- ASCII decimal representation of an `Int`, as Rust `i64::to_string`. -/
def intToDecimal (i : Int) : List Nat :=
  if i < 0 then 45 :: natToDecimal (-i).toNat else natToDecimal i.toNat

/-- RESP frames, as `enum Frame` in `src/frame.rs`. -/
inductive Frame where
  | Nil : Frame
  | SimpleString (s : Str) : Frame
  | Error (s : Str) : Frame
  | Integer (i : Int) : Frame
  | BulkString (b : Str) : Frame
  | Array (elems : List Frame) : Frame

mutual

/-- Serialized byte count of a frame, as `Frame::len` in `src/frame.rs`. -/
def Frame.len : Frame → Nat
  | .Nil => 5
  | .SimpleString s => s.length + 3
  | .Error s => s.length + 3
  | .Integer i => (intToDecimal i).length + 3
  | .BulkString s => s.length + 5 + (natToDecimal s.length).length
  | .Array v => Frame.lenList v + 3 + (natToDecimal v.length).length

/-- Sum of `Frame::len` over the elements of an array frame. -/
def Frame.lenList : List Frame → Nat
  | [] => 0
  | f :: fs => Frame.len f + Frame.lenList fs

end

mutual

/-- Wire encoding of a frame, as `Frame::serialize` in `src/frame.rs`. -/
def Frame.serialize : Frame → List Nat
  | .Nil => [36, 45, 49, 13, 10]
  | .SimpleString s => 43 :: (s ++ [13, 10])
  | .Error s => 45 :: (s ++ [13, 10])
  | .Integer i => 58 :: (intToDecimal i ++ [13, 10])
  | .BulkString s => 36 :: (natToDecimal s.length ++ [13, 10] ++ s ++ [13, 10])
  | .Array v => 42 :: (natToDecimal v.length ++ [13, 10] ++ Frame.serializeList v)

/-- Concatenated wire encodings of the elements of an array frame. -/
def Frame.serializeList : List Frame → List Nat
  | [] => []
  | f :: fs => Frame.serialize f ++ Frame.serializeList fs

end

/-- Error kinds of `enum RedisErr` in `src/lib.rs` that the modelled code
paths can produce (the `From` impls send `FromUtf8Error` and
`ParseIntError` to `InvalidArgument`). -/
inductive RedisErr where
  | FrameIncomplete
  | FrameMalformed
  | InvalidArgument
  | NoAction
  | WrongType
  | KeyNotFound
  | OutOfMemory
  deriving DecidableEq

/-- Outcome of `Frame::from_bytes`: a frame, a `RedisErr`, or a Rust panic
(out-of-bounds slice in the array loop). -/
inductive ParseResult where
  | ok (f : Frame) : ParseResult
  | err (e : RedisErr) : ParseResult
  | panicked : ParseResult

/-- One inline-command token, as the loop body over `s.split(' ')` in the
alphanumeric branch of `Frame::from_bytes`: empty tokens are skipped,
digit-led tokens parse as `Integer`, letter-led tokens become
`SimpleString`, anything else is `FrameMalformed`. -/
def inlineTokens : List (List Nat) → List Frame → ParseResult
  | [], acc => .ok (.Array acc.reverse)
  | t :: ts, acc =>
    match t with
    | [] => inlineTokens ts acc
    | b :: _ =>
      if isDigitB b then
        match decToInt? t with
        | some n => inlineTokens ts (.Integer n :: acc)
        | none => .err .InvalidArgument
      else if isAlphaB b then inlineTokens ts (.SimpleString t :: acc)
      else .err .FrameMalformed

mutual

/-- Fuel-indexed `Frame::from_bytes` from `src/frame.rs`.  The fuel is an
upper bound on recursion depth; `data.length + 1 ≤ fuel` is always enough
(each recursive call strictly shrinks the byte string).  With exhausted
fuel the result is the (never reached) `panicked`. -/
def fromBytesF : Nat → List Nat → ParseResult
  | 0, _ => .panicked
  | _ + 1, [] => .err .FrameIncomplete
  | fuel + 1, b :: rest =>
    if b = 43 then
      if endsWithCRLF rest then .ok (.SimpleString (rest.take (rest.length - 2)))
      else .err .FrameIncomplete
    else if b = 45 then
      if endsWithCRLF rest then .ok (.Error (rest.take (rest.length - 2)))
      else .err .FrameIncomplete
    else if b = 58 then
      if endsWithCRLF rest then
        match decToInt? (rest.take (rest.length - 2)) with
        | some n => .ok (.Integer n)
        | none => .err .InvalidArgument
      else .err .FrameIncomplete
    else if b = 36 then
      match indexOfCRLF rest with
      | none => .err .FrameIncomplete
      | some idx =>
        match decToNat? (rest.take idx) with
        | none => .err .InvalidArgument
        | some num =>
          let rest2 := rest.drop (idx + 2)
          match indexOfCRLF rest2 with
          | none => .err .FrameIncomplete
          | some idx2 =>
            if idx2 ≠ num then .err .FrameMalformed
            else .ok (.BulkString (rest2.take num))
    else if b = 42 then
      match indexOfCRLF rest with
      | none => .err .FrameIncomplete
      | some idx =>
        match decToInt? (rest.take idx) with
        | none => .err .InvalidArgument
        | some cnt => parseElemsF fuel cnt.toNat (rest.drop (idx + 2)) []
    else if isAlnumB b then
      let line :=
        match indexOfCRLF (b :: rest) with
        | some idx => (b :: rest).take idx
        | none => b :: rest
      inlineTokens (line.splitOn 32) []
    else .err .FrameMalformed

/-- The `for _ in 0..num` element loop of the array branch of
`Frame::from_bytes`: parse one frame, advance the slice by `frame.len()`
(a Rust panic if that overruns the slice), repeat. -/
def parseElemsF : Nat → Nat → List Nat → List Frame → ParseResult
  | 0, _, _, _ => .panicked
  | _ + 1, 0, _, acc => .ok (.Array acc.reverse)
  | fuel + 1, n + 1, data, acc =>
    match fromBytesF fuel data with
    | .ok f =>
      if data.length < f.len then .panicked
      else parseElemsF fuel n (data.drop f.len) (f :: acc)
    | r => r

end

/-- `Frame::from_bytes` at adequate fuel. -/
def Frame.from_bytes (data : List Nat) : ParseResult :=
  fromBytesF (data.length + 1) data

/-- Outcome of one pass of `AsyncConnection::read_frame` over the current
read buffer (`src/connection/connection.rs`): a frame plus the bytes the
buffer holds afterwards, a request for more socket bytes, an error, or a
panic. -/
inductive ReadStep where
  | frame (f : Frame) (remaining : List Nat) : ReadStep
  | needMore : ReadStep
  | fail (e : RedisErr) : ReadStep
  | panicked : ReadStep

/-- One iteration of the `AsyncConnection::read_frame` loop on buffer
contents `buf`: `parse_frame` maps a successful parse to the frame and
`FrameIncomplete` to "read more"; on success the code runs
`self.read_buffer.clear()`, so the buffer afterwards is empty. -/
def read_frame_step (buf : List Nat) : ReadStep :=
  match Frame.from_bytes buf with
  | .ok f => .frame f []
  | .err .FrameIncomplete => .needMore
  | .err e => .fail e
  | .panicked => .panicked

/-- Sorted-set element, as `struct Z` in `src/value.rs` (`f64` score
modelled as `Int`). -/
structure Z where
  score : Int
  member : Str
  deriving DecidableEq

/-- Byte-wise lexicographic order on byte strings, as `Vec<u8>: Ord`. -/
def strLt : Str → Str → Bool
  | [], [] => false
  | [], _ :: _ => true
  | _ :: _, [] => false
  | a :: as_, b :: bs => if a < b then true else if b < a then false else strLt as_ bs

/-- Strict order from `impl Ord for Z`: score first, member bytes second
(`partial_cmp` on modelled scores is always `Some`). -/
def zLt (a b : Z) : Bool :=
  if a.score < b.score then true
  else if b.score < a.score then false
  else strLt a.member b.member

/-- Equality under `Z::cmp` (the comparison the ordered skip-list uses to
locate elements): equal score and equal member. -/
def zEquiv (a b : Z) : Bool := a.score = b.score && a.member = b.member

/-- Ordered insert of the skip-list (`OrderedSkipList::insert`): duplicates
are kept; the new element goes before the first strictly greater one. -/
def slInsert (z : Z) : List Z → List Z
  | [] => [z]
  | x :: xs => if zLt x z then x :: slInsert z xs else z :: x :: xs

/-- `OrderedSkipList::remove`: remove one element that compares `Equal` to
the probe under `Z::cmp`, if any. -/
def slRemove (z : Z) : List Z → List Z
  | [] => []
  | x :: xs => if zEquiv z x then xs else x :: slRemove z xs

/-- Sorted set, as `struct ZSet` in `src/value.rs`: a member-to-score map
plus the ordered skip-list. -/
structure ZSet where
  hmap : List (Str × Int)
  lists : List Z

/-- `ZSet::new`. -/
def ZSet.new : ZSet := { hmap := [], lists := [] }

/-- Association-list lookup, as `HashMap::get`. -/
def alGet {α : Type} (k : Str) : List (Str × α) → Option α
  | [] => none
  | (k', v) :: rest => if k' = k then some v else alGet k rest

/-- Association-list insert, as `HashMap::insert` (replaces an existing
binding). -/
def alPut {α : Type} (k : Str) (v : α) : List (Str × α) → List (Str × α)
  | [] => [(k, v)]
  | (k', v') :: rest => if k' = k then (k, v) :: rest else (k', v') :: alPut k v rest

/-- Association-list removal, as `HashMap::remove` (drops the binding). -/
def alDel {α : Type} (k : Str) : List (Str × α) → List (Str × α)
  | [] => []
  | (k', v') :: rest => if k' = k then rest else (k', v') :: alDel k rest

/-- `ZSet::zadd` from `src/value.rs`: returns the reported count and the
updated set.  On a score change the code probes the skip-list with a `Z`
carrying the caller's `score` argument (`self.lists.remove(&z)`) before
reinserting that same `z`. -/
def ZSet.zadd (zs : ZSet) (nx xx lt gt ch incr : Bool) (score : Int)
    (member : Str) : Nat × ZSet :=
  let z : Z := { score := score, member := member }
  let contains := (alGet z.member zs.hmap).isSome
  if nx && contains then (0, zs)
  else if xx && !contains then (0, zs)
  else if !contains then
    (1, { hmap := alPut z.member z.score zs.hmap, lists := slInsert z zs.lists })
  else
    let value := (alGet z.member zs.hmap).getD 0
    if lt && value ≤ z.score then (0, zs)
    else if gt && z.score ≤ value then (0, zs)
    else if value = z.score && !incr then (0, zs)
    else
      let hmap' := if incr then alPut z.member (value + z.score) zs.hmap
                   else alPut z.member z.score zs.hmap
      let lists' := slInsert z (slRemove z zs.lists)
      (if ch then 1 else 0, { hmap := hmap', lists := lists' })

/-- `ZSet::remove` from `src/value.rs`: drop the member from the map and
probe the skip-list with the recorded score. -/
def ZSet.remove (zs : ZSet) (member : Str) : Bool × ZSet :=
  match alGet member zs.hmap with
  | some score =>
    (true, { hmap := alDel member zs.hmap,
             lists := slRemove { score := score, member := member } zs.lists })
  | none => (false, zs)

/-- `ZSet::len`. -/
def ZSet.len (zs : ZSet) : Nat := zs.hmap.length

/-- Internal consistency of the two `ZSet` structures: every skip-list
element carries the score its member has in the map, and every mapped
member occurs exactly once in the skip-list. -/
def ZSet.consistent (zs : ZSet) : Bool :=
  zs.lists.all (fun z => alGet z.member zs.hmap == some z.score) &&
  zs.hmap.all (fun p => (zs.lists.filter (fun z => z.member == p.1)).length == 1)

/-- Stored values, as `enum Value` in `src/value.rs` (the bloom-filter bit
array is an external collaborator, abstracted to its member list). -/
inductive Value where
  | KV (b : Str) : Value
  | List (l : List Str) : Value
  | Set (s : List Str) : Value
  | Hash (h : List (Str × Str)) : Value
  | ZSet (z : ZSet) : Value
  | BloomFilter : Value

/-- `Value::is_list`. -/
def Value.is_list : Value → Bool
  | .List _ => true
  | _ => false

/-- `Value::is_zset`. -/
def Value.is_zset : Value → Bool
  | .ZSet _ => true
  | _ => false

/-- `Value::to_kv` (the `ValueDecorator` by-value accessor): the payload of
a `KV`, `none` on any other variant. -/
def Value.to_kv : Value → Option Str
  | .KV b => some b
  | _ => none

/-- Keyspace record, as `struct Entry` in `src/db.rs` (`Instant` modelled
as a tick counter). -/
structure Entry where
  value : Value
  expire_at : Option Nat
  touch_at : Nat

/-- `Entry::new` at the current instant. -/
def Entry.new (v : Value) (expire_at : Option Nat) (now : Nat) : Entry :=
  { value := v, expire_at := expire_at, touch_at := now }

/-- Shared state, as `struct State` in `src/db.rs`: keyspace, pub/sub
registry (each channel modelled by its count of live broadcast receivers),
TTL index `BTreeSet<(String, Instant)>`, shutdown flag. -/
structure State where
  table : List (Str × Entry)
  publisher : List (Str × Nat)
  expire_table : List (Str × Nat)
  shutdown : Bool

/-- `State::new`. -/
def State.new : State :=
  { table := [], publisher := [], expire_table := [], shutdown := false }

/-- Set-semantics insert into the `BTreeSet` model (storage order is
irrelevant; iteration order is produced by `btMin`). -/
def btInsert (x : Str × Nat) (l : List (Str × Nat)) : List (Str × Nat) :=
  if x ∈ l then l else x :: l

/-- `BTreeSet::remove` of one element. -/
def btRemove (x : Str × Nat) (l : List (Str × Nat)) : List (Str × Nat) :=
  l.erase x

/-- The `Ord` instance `(String, Instant)` iterates under: key bytes first,
instant second. -/
def btLe (a b : Str × Nat) : Bool :=
  if strLt a.1 b.1 then true
  else if strLt b.1 a.1 then false
  else a.2 ≤ b.2

/-- First element of `BTreeSet` iteration (`iter().next()`): the least pair
under `btLe`. -/
def btMin : List (Str × Nat) → Option (Str × Nat)
  | [] => none
  | x :: xs =>
    match btMin xs with
    | none => some x
    | some y => some (if btLe x y then x else y)

/-- `State::next_expire`: the instant of the first index pair in iteration
order. -/
def State.next_expire (s : State) : Option Nat := (btMin s.expire_table).map (·.2)

/-- Outcome of a `DB` operation: a value, a `RedisErr`, or a Rust panic. -/
inductive DbOut (α : Type) where
  | ok (a : α) : DbOut α
  | err (e : RedisErr) : DbOut α
  | panicked : DbOut α

/-- `DB::get` from `src/db.rs`: lazy expiry on read, then the `KV` payload
or `WrongType`. -/
def DB.get (s : State) (key : Str) (now : Nat) : DbOut Str × State :=
  match alGet key s.table with
  | some e =>
    match e.expire_at with
    | some d =>
      if d < now then
        (.err .KeyNotFound,
         { s with table := alDel key s.table,
                  expire_table := btRemove (key, d) s.expire_table })
      else
        match e.value with
        | .KV v => (.ok v, s)
        | _ => (.err .WrongType, s)
    | none =>
      match e.value with
      | .KV v => (.ok v, s)
      | _ => (.err .WrongType, s)
  | none => (.err .KeyNotFound, s)

/-- `DB::set` from `src/db.rs`, in source order: the nx/xx early returns,
the KEEPTTL copy, `table.insert`, the GET early return (which skips all
expiry-index maintenance), removal of the overwritten entry's index pair,
and insertion of the `expire_at` argument's pair.  The `notify` flag only
drives the reaper wake-up and touches no state, so it is not modelled. -/
def DB.set (s : State) (key : Str) (value : Str) (nx xx get keepttl : Bool)
    (expire_at : Option Nat) (now : Nat) : DbOut (Option Str) × State :=
  let entry0 := Entry.new (.KV value) expire_at now
  let old := alGet key s.table
  if nx && old.isSome then (.err .NoAction, s)
  else if xx && !old.isSome then (.err .NoAction, s)
  else
    let entry :=
      match old with
      | some o => if keepttl then { entry0 with expire_at := o.expire_at } else entry0
      | none => entry0
    let table' := alPut key entry s.table
    if get && old.isSome then
      match old with
      | some o =>
        match o.value.to_kv with
        | some b => (.ok (some b), { s with table := table' })
        | none => (.panicked, { s with table := table' })
      | none => (.panicked, { s with table := table' })
    else
      let et1 :=
        match old with
        | some o =>
          match o.expire_at with
          | some d => btRemove (key, d) s.expire_table
          | none => s.expire_table
        | none => s.expire_table
      let et2 :=
        match expire_at with
        | some t => btInsert (key, t) et1
        | none => et1
      (.ok none, { s with table := table', expire_table := et2 })

/-- `DB::expire` from `src/db.rs`: set the entry's deadline and add the
pair to the index; `KeyNotFound` (with untouched state) on a missing
key. -/
def DB.expire (s : State) (key : Str) (expire_at : Nat) : DbOut Unit × State :=
  match alGet key s.table with
  | some e =>
    (.ok (),
     { s with table := alPut key { e with expire_at := some expire_at } s.table,
              expire_table := btInsert (key, expire_at) s.expire_table })
  | none => (.err .KeyNotFound, s)

/-- `DB::remove` from `src/db.rs`: drop the key from the keyspace only;
the expiry index is not consulted. -/
def DB.remove (s : State) (key : Str) : Option Value × State :=
  ((alGet key s.table).map (·.value), { s with table := alDel key s.table })

/-- `DB::del` delegates to `DB::remove`. -/
def DB.del (s : State) (key : Str) : Option Value × State := DB.remove s key

/-- `DB::flush`: clear keyspace and expiry index, keep the publisher
map. -/
def DB.flush (s : State) : State := { s with table := [], expire_table := [] }

/-- `DB::lpush` from `src/db.rs`: on an existing list each value is pushed
to the front in turn; on a missing key the fresh `VecDeque` is filled with
`extend`, which appends in the given order. -/
def DB.lpush (s : State) (key : Str) (values : List Str) (now : Nat) :
    DbOut Nat × State :=
  match alGet key s.table with
  | some e =>
    match e.value with
    | .List l =>
      let l' := values.reverse ++ l
      (.ok l'.length, { s with table := alPut key { e with value := .List l' } s.table })
    | _ => (.err .WrongType, s)
  | none =>
    (.ok values.length,
     { s with table := alPut key (Entry.new (.List values) none now) s.table })

/-- `DB::lrange` from `src/db.rs`: negative indices offset by the length,
clamp at zero, empty result when `start > stop` or `start ≥ len`, clamp
`stop` to `len - 1`, then `skip(start).take(stop - start)`. -/
def DB.lrange (s : State) (key : Str) (start stop : Int) : DbOut (List Str) :=
  match alGet key s.table with
  | some e =>
    match e.value with
    | .List list =>
      let len : Int := list.length
      let start1 := if start < 0 then len + start else start
      let stop1 := if stop < 0 then len + stop else stop
      let start2 := if start1 < 0 then 0 else start1
      let stop2 := if stop1 < 0 then 0 else stop1
      let startN := start2.toNat
      let stopN := stop2.toNat
      if startN > stopN then .ok []
      else if startN ≥ list.length then .ok []
      else
        let stopC := if stopN ≥ list.length then list.length - 1 else stopN
        .ok ((list.drop startN).take (stopC - startN))
    | _ => .err .WrongType
  | none => .err .KeyNotFound

/-- `DB::zadd` from `src/db.rs`: with an existing zset the per-pair counts
from `ZSet::zadd` are summed; with a missing key the pairs are applied to a
fresh `ZSet` but the returned count is `zset.len()` — the number of pairs
supplied, regardless of what `ZSet::zadd` reported. -/
def DB.zadd (s : State) (key : Str) (nx xx lt gt ch incr : Bool)
    (zset : List (Int × Str)) (now : Nat) : DbOut Nat × State :=
  match alGet key s.table with
  | some e =>
    match e.value with
    | .ZSet zv =>
      let r := zset.foldl
        (fun (acc : Nat × ZSet) p =>
          let c := acc.2.zadd nx xx lt gt ch incr p.1 p.2
          (acc.1 + c.1, c.2)) (0, zv)
      (.ok r.1, { s with table := alPut key { e with value := .ZSet r.2 } s.table })
    | _ => (.err .WrongType, s)
  | none =>
    let value_len := zset.length
    let value := zset.foldl
      (fun zv p => (ZSet.zadd zv nx xx lt gt ch incr p.1 p.2).2) ZSet.new
    (.ok value_len,
     { s with table := alPut key (Entry.new (.ZSet value) none now) s.table })

/-- `DB::subscribe` from `src/db.rs`: an occupied channel entry hands out
one more broadcast receiver; a vacant one is created with its first
receiver. -/
def DB.subscribe (s : State) (channel : Str) : State :=
  match alGet channel s.publisher with
  | some n => { s with publisher := alPut channel (n + 1) s.publisher }
  | none => { s with publisher := alPut channel 1 s.publisher }

/-- A subscriber's `broadcast::Receiver` being dropped (its session ended):
the channel's live-receiver count decreases; the sender entry itself is
never removed by the code. -/
def dropReceiver (s : State) (channel : Str) : State :=
  match alGet channel s.publisher with
  | some n => { s with publisher := alPut channel (n - 1) s.publisher }
  | none => s

/-- `DB::publish` from `src/db.rs`.  `broadcast::Sender::send` returns the
number of active receivers and, per the tokio contract, `Err` when there
are none; the code calls `.unwrap()` on it, so a channel entry with zero
live receivers is a panic.  A missing entry returns `0`. -/
def DB.publish (s : State) (channel : Str) (_msg : Str) : DbOut Nat :=
  match alGet channel s.publisher with
  | some n => if n = 0 then .panicked else .ok n
  | none => .ok 0

/-- The loop of `Shared::purge_expired_keys`: repeatedly take the first
index pair in iteration order; a future instant is returned as the next
wake time, a past one is removed from the index and its key dropped from
the keyspace.  Fuel-indexed; `et.length + 1` is always enough since every
iteration removes an element. -/
def purgeGoF : Nat → Nat → List (Str × Nat) → List (Str × Entry) →
    Option Nat × List (Str × Nat) × List (Str × Entry)
  | 0, _, et, table => (none, et, table)
  | fuel + 1, now, et, table =>
    match btMin et with
    | none => (none, et, table)
    | some (key, instant) =>
      if now < instant then (some instant, et, table)
      else purgeGoF fuel now (btRemove (key, instant) et) (alDel key table)

/-- `Shared::purge_expired_keys` from `src/db.rs`. -/
def Shared.purge_expired_keys (s : State) (now : Nat) : Option Nat × State :=
  if s.shutdown then (none, s)
  else
    let r := purgeGoF (s.expire_table.length + 1) now s.expire_table s.table
    (r.1, { s with expire_table := r.2.1, table := r.2.2 })

/-- The wrong-type reply text used by the command layer. -/
def wrongTypeMsg : Str :=
  ("WRONGTYPE Operation against a key holding the wrong kind of value".toList).map Char.toNat

/-- `Expire::apply` from `src/cmd/meta.rs`: `:1` on success, `:0` on
`KeyNotFound`; any other error hits `unreachable!`, modelled as `none`. -/
def Expire.apply (key : Str) (expire : Nat) (now : Nat) (s : State) :
    Option (Frame × State) :=
  match DB.expire s key (now + expire) with
  | (.ok _, s1) => some (.Integer 1, s1)
  | (.err .KeyNotFound, s1) => some (.Integer 0, s1)
  | (_, _) => none

/-- `LRange::apply` from `src/cmd/list.rs`: values as an array of bulk
strings, `KeyNotFound` as an empty array, `WrongType` as the WRONGTYPE
error; anything else hits `unreachable!`, modelled as `none`. -/
def LRange.apply (key : Str) (start stop : Int) (s : State) : Option Frame :=
  match DB.lrange s key start stop with
  | .ok values => some (.Array (values.map (fun v => .BulkString v)))
  | .err .KeyNotFound => some (.Array [])
  | .err .WrongType => some (.Error wrongTypeMsg)
  | _ => none

/-- `Publish::apply` from `src/cmd/pub_sub.rs`: the delivered count as an
integer frame; `none` models the panic inside `DB::publish`. -/
def Publish.apply (channel : Str) (msg : Str) (s : State) : Option Frame :=
  match DB.publish s channel msg with
  | .ok n => some (.Integer n)
  | _ => none

/-- Invariant I-1 of the specification on a concrete state: a key appears
in the expiry index iff its keyspace entry exists and has a deadline. -/
def I1check (s : State) : Bool :=
  (s.expire_table.all fun p =>
    match alGet p.1 s.table with
    | some e => e.expire_at.isSome
    | none => false) &&
  (s.table.all fun p =>
    match p.2.expire_at with
    | some _ => s.expire_table.any (fun q => q.1 == p.1)
    | none => true)

/-- A two-key state whose expiry index holds `("a", 10)` and `("b", 2)`:
key `"a"` (byte 97) expires at tick 10, key `"b"` (byte 98) at tick 2. -/
def reaperState : State :=
  { table := [([97], Entry.new (.KV [120]) (some 10) 0),
              ([98], Entry.new (.KV [121]) (some 2) 0)],
    publisher := [],
    expire_table := [([97], 10), ([98], 2)],
    shutdown := false }

/-- No `\r\n` window occurs in the byte string. -/
def noCRLF (xs : List Nat) : Bool := (indexOfCRLF xs).isNone

/-- The frame shapes RESP clients put on the wire: bulk strings whose
payload contains no `\r\n`, and arrays (nested arbitrarily) of such
frames. -/
inductive BulkSafe : Frame → Prop where
  | bulk (b : Str) (h : noCRLF b = true) : BulkSafe (.BulkString b)
  | arr (l : List Frame) (h : ∀ f ∈ l, BulkSafe f) : BulkSafe (.Array l)

/-- The frame's serialization parses back to the frame even with arbitrary
trailing bytes, at any adequate fuel. -/
def ParsesExact (f : Frame) : Prop :=
  ∀ (t : List Nat) (fu : Nat), (Frame.serialize f ++ t).length + 1 ≤ fu →
    fromBytesF fu (Frame.serialize f ++ t) = .ok f

/-- Every strict front part of the frame's serialization parses as
`Incomplete`, at any adequate fuel. -/
def TakeIncomplete (f : Frame) : Prop :=
  ∀ (k fu : Nat), k < (Frame.serialize f).length → k + 1 ≤ fu →
    fromBytesF fu ((Frame.serialize f).take k) = .err .FrameIncomplete

/-- C1: the claim says `Frame::from_bytes (Frame::serialize f) = f` for
every frame, including `Nil` with wire form `$-1\r\n`.  The code refutes
it at `Nil` itself: `serialize` emits `$-1\r\n`, but the bulk-string
branch of `from_bytes` parses the length as a `usize`, `"-1"` fails that
parse, and the `ParseIntError` surfaces as `InvalidArgument`. -/
theorem c1_nil_roundtrip_fails :
    Frame.from_bytes (Frame.serialize .Nil) = .err .InvalidArgument := by
  rfl

/-- C2: the claim says that with `serialize f1 ++ serialize f2` in the
session read buffer the frame reader yields `f1` and leaves exactly the
bytes of `f2`.  The code yields `f1` but then runs
`self.read_buffer.clear()`, leaving an empty buffer: the seven bytes of
`serialize f2 = "$1\r\nb\r\n"` are discarded, not kept for the next
parse. -/
theorem c2_read_frame_clears_buffer :
    read_frame_step (Frame.serialize (.BulkString [97]) ++ Frame.serialize (.BulkString [98]))
      = .frame (.BulkString [97]) [] ∧
    Frame.serialize (.BulkString [98]) = [36, 49, 13, 10, 98, 13, 10] := by
  exact ⟨rfl, rfl⟩

/-- C3: the claim says invariant I-1 (key in the expiry index iff its
entry has a deadline) is preserved by every operation.  `DB::remove`
refutes it: after `SET k v` with a deadline, I-1 holds, but removing `k`
drops only the keyspace entry and leaves `(k, 5)` dangling in the expiry
index. -/
theorem c3_del_breaks_expiry_invariant :
    I1check (DB.set State.new [107] [118] false false false false (some 5) 0).2 = true ∧
    I1check (DB.remove (DB.set State.new [107] [118] false false false false (some 5) 0).2 [107]).2 = false ∧
    (DB.remove (DB.set State.new [107] [118] false false false false (some 5) 0).2 [107]).2.expire_table
      = [([107], 5)] ∧
    alGet [107] (DB.remove (DB.set State.new [107] [118] false false false false (some 5) 0).2 [107]).2.table
      = none := by
  exact ⟨rfl, rfl, rfl, rfl⟩

/-- C4: the claim says the expiry index is ordered deadline-first and a
reaper pass removes every past-deadline pair and returns the earliest
future deadline.  The code's index is `BTreeSet<(String, Instant)>`,
ordered key-first: with pairs `("a",10)` and `("b",2)` at tick 7,
iteration starts at `("a",10)`, the pass stops there and returns
`Some 10`, and the expired pair `("b",2)` survives in the index with key
`"b"` still in the keyspace. -/
theorem c4_reaper_misses_expired_pair :
    Shared.purge_expired_keys reaperState 7 = (some 10, reaperState) ∧
    State.next_expire reaperState = some 10 ∧
    ([98], 2) ∈ reaperState.expire_table ∧ 2 < 7 := by
  exact ⟨rfl, rfl, by decide, by decide⟩

/-- C5: the claim says `LPUSH k a b c` then `LRANGE k 0 -1` yields
`[c, b, a]`.  The code returns `[a, b]`: a fresh-key `LPUSH` fills the
deque with `extend` (appending in argument order, no reversal), and
`lrange` takes `stop - start` elements instead of `stop - start + 1`,
dropping the final element. -/
theorem c5_lrange_wrong_result :
    DB.lrange (DB.lpush State.new [107] [[97], [98], [99]] 0).2 [107] 0 (-1)
      = .ok [[97], [98]] ∧
    LRange.apply [107] 0 (-1) (DB.lpush State.new [107] [[97], [98], [99]] 0).2
      = some (.Array [.BulkString [97], .BulkString [98]]) := by
  exact ⟨rfl, rfl⟩

/-- C6: the claim says `ZADD` with `XX` on an absent member reports 0 and
inserts nothing, including when the key itself is missing.  On a missing
key the code builds a fresh `ZSet`, lets `ZSet::zadd` (correctly) refuse
the insert under `XX`, but then reports `zset.len()` — the number of
supplied pairs: the reply is 1, with an empty sorted set stored. -/
theorem c6_zadd_xx_missing_key_reports_one :
    DB.zadd State.new [107] false true false false false false [(1, [109])] 0
      = (.ok 1, { State.new with table := [([107], Entry.new (.ZSet ZSet.new) none 0)] }) := by
  rfl

/-- C7: the claim says `PUBLISH` returns 0 on a channel with no
subscribers, both when no channel entry exists and when every receiver
has been dropped.  The first case does return 0, but in the second the
code calls `.unwrap()` on `broadcast::Sender::send`, which is an `Err`
when no active receiver exists: the session panics instead of replying
`:0`. -/
theorem c7_publish_panics_without_receivers :
    DB.publish (dropReceiver (DB.subscribe State.new [99]) [99]) [99] [104, 105]
      = .panicked ∧
    DB.publish State.new [99] [104, 105] = .ok 0 := by
  exact ⟨rfl, rfl⟩

/-- C8 counterexample: `"+a\r\nb\r\n"` parses as the complete frame
`SimpleString "a\r\nb"` (its `len` is the full 7 bytes), yet its strict
4-byte prefix `"+a\r\n"` parses successfully as `SimpleString "a"` —
not as `Incomplete` as the claim requires. -/
theorem c8_strict_prefix_parses_ok :
    Frame.from_bytes [43, 97, 13, 10, 98, 13, 10] = .ok (.SimpleString [97, 13, 10, 98]) ∧
    (Frame.SimpleString [97, 13, 10, 98]).len = 7 ∧
    Frame.from_bytes ([43, 97, 13, 10, 98, 13, 10].take 4) = .ok (.SimpleString [97]) := by
  exact ⟨rfl, rfl, rfl⟩

/-- C9: applying the `EXPIRE` command to a key absent from the keyspace
yields `Integer 0` — `DB::expire`'s `KeyNotFound` is translated by
`Expire::apply` — and the state is unchanged. -/
theorem c9_expire_missing_key_integer_zero
    (key : Str) (expire now : Nat) (s : State) (h : alGet key s.table = none) :
    Expire.apply key expire now s = some (.Integer 0, s) := by
  unfold Expire.apply DB.expire
  rw [h]

/-- C9 witness: the theorem applied to the empty state. -/
theorem c9_expire_missing_key_integer_zero_witness :
    alGet [107] State.new.table = none ∧
    Expire.apply [107] 10 0 State.new = some (.Integer 0, State.new) :=
  ⟨rfl, c9_expire_missing_key_integer_zero [107] 10 0 State.new rfl⟩

/-- C10: the claim says every `ZSet` operation keeps the member map and
the ordered skip-list consistent.  A plain score update refutes it:
after `zadd score 1 m` the structures agree, but `zadd score 2 m` probes
the skip-list with the new score, fails to find the stored `(1, m)`
element, and inserts `(2, m)` next to it — `m` is now in the skip-list
twice while the map says its score is 2. -/
theorem c10_zadd_update_breaks_consistency :
    ZSet.consistent (ZSet.zadd ZSet.new false false false false false false 1 [109]).2 = true ∧
    ZSet.consistent
      (ZSet.zadd (ZSet.zadd ZSet.new false false false false false false 1 [109]).2
        false false false false false false 2 [109]).2 = false ∧
    (ZSet.zadd (ZSet.zadd ZSet.new false false false false false false 1 [109]).2
        false false false false false false 2 [109]).2.lists
      = [{ score := 1, member := [109] }, { score := 2, member := [109] }] := by
  exact ⟨rfl, rfl, rfl⟩

/-- Inversion for `noCRLF` on two leading bytes. -/
theorem noCRLF_cons_cons {a b : Nat} {bs : List Nat} (h : noCRLF (a :: b :: bs) = true) :
    ¬(a = 13 ∧ b = 10) ∧ noCRLF (b :: bs) = true := by
  by_cases hab : a = 13 ∧ b = 10
  · simp [noCRLF, indexOfCRLF, hab] at h
  · refine ⟨hab, ?_⟩
    simp only [noCRLF, indexOfCRLF, if_neg hab] at h ⊢
    cases hi : indexOfCRLF (b :: bs) with
    | none => rfl
    | some i => rw [hi] at h; simp at h

/-- A byte string without `\r\n` followed by a `\r\n` and anything: the
first `\r\n` window sits exactly at the end of the clean part. -/
theorem indexOfCRLF_append_crlf :
    ∀ (xs : List Nat), noCRLF xs = true →
      ∀ (t : List Nat), indexOfCRLF (xs ++ 13 :: 10 :: t) = some xs.length
  | [], _, t => by simp [indexOfCRLF]
  | [a], h, t => by
    have ha : ¬(a = 13 ∧ (13 : Nat) = 10) := by omega
    simp [indexOfCRLF, ha]
  | a :: b :: bs, h, t => by
    have hh := noCRLF_cons_cons h
    have ih := indexOfCRLF_append_crlf (b :: bs) hh.2 t
    simp only [List.cons_append, List.length_cons] at ih ⊢
    rw [indexOfCRLF, if_neg hh.1, ih]
    rfl

/-- Every take shorter than one past the first `\r\n` window contains no
such window. -/
theorem indexOfCRLF_take_none :
    ∀ (xs : List Nat) (i k : Nat), indexOfCRLF xs = some i → k ≤ i + 1 →
      indexOfCRLF (xs.take k) = none
  | [], _, _, h, _ => by simp [indexOfCRLF] at h
  | [_], _, _, h, _ => by simp [indexOfCRLF] at h
  | a :: b :: bs, i, k, h, hk => by
    rw [indexOfCRLF] at h
    by_cases hab : a = 13 ∧ b = 10
    · rw [if_pos hab] at h
      have hi : i = 0 := by injection h with h1; omega
      subst hi
      match k, hk with
      | 0, _ => rfl
      | 1, _ => rfl
    · rw [if_neg hab] at h
      obtain ⟨j, hj, hij⟩ : ∃ j, indexOfCRLF (b :: bs) = some j ∧ i = j + 1 := by
        cases hx : indexOfCRLF (b :: bs) with
        | none => rw [hx] at h; simp at h
        | some j => rw [hx] at h; simp at h; exact ⟨j, rfl, h.symm⟩
      match k, hk with
      | 0, _ => rfl
      | 1, _ => rfl
      | (k2 + 2), hk => ?_
      have ihx := indexOfCRLF_take_none (b :: bs) j (k2 + 1) hj (by omega)
      simp only [List.take_succ_cons] at ihx ⊢
      rw [indexOfCRLF, if_neg hab, ihx]
      rfl

/-- A byte string free of carriage returns has no `\r\n` window. -/
theorem noCRLF_of_no13 :
    ∀ (xs : List Nat), (∀ b ∈ xs, b ≠ 13) → noCRLF xs = true
  | [] => fun _ => rfl
  | [_] => fun _ => rfl
  | a :: b :: bs => fun h => by
    have hab : ¬(a = 13 ∧ b = 10) := by
      intro hc
      exact h a (by simp) hc.1
    have ih := noCRLF_of_no13 (b :: bs) (fun x hx => h x (by simp [hx]))
    simp only [noCRLF, indexOfCRLF, if_neg hab]
    simp only [noCRLF] at ih
    cases hi : indexOfCRLF (b :: bs) with
    | none => rfl
    | some j => rw [hi] at ih; simp at ih

/-- Every byte `natDecAux` emits is an ASCII digit. -/
theorem natDecAux_digits :
    ∀ (fuel n : Nat), ∀ b ∈ natDecAux fuel n, 48 ≤ b ∧ b ≤ 57
  | 0, n => by
    have : n % 10 < 10 := Nat.mod_lt _ (by omega)
    simp [natDecAux]
    omega
  | fuel + 1, n => by
    by_cases hn : n < 10
    · simp [natDecAux, hn]
      omega
    · have : n % 10 < 10 := Nat.mod_lt _ (by omega)
      have ih := natDecAux_digits fuel (n / 10)
      simp only [natDecAux, if_neg hn]
      intro b hb
      rcases List.mem_append.mp hb with h1 | h1
      · exact ih b h1
      · simp at h1
        omega

/-- `natDecAux` never returns the empty string. -/
theorem natDecAux_ne_nil (fuel n : Nat) : natDecAux fuel n ≠ [] := by
  cases fuel with
  | zero => simp [natDecAux]
  | succ f =>
    by_cases hn : n < 10
    · simp [natDecAux, hn]
    · simp [natDecAux, hn]

/-- With adequate fuel, folding the digit bytes back recovers the
number. -/
theorem natDecAux_foldl :
    ∀ (fuel n : Nat), n ≤ fuel →
      (natDecAux fuel n).foldl (fun acc b => acc * 10 + (b - 48)) 0 = n
  | 0, n, h => by
    have hn : n = 0 := by omega
    subst hn
    rfl
  | fuel + 1, n, h => by
    by_cases hn : n < 10
    · simp [natDecAux, hn]
    · have hdiv : n / 10 ≤ fuel := by
        have : n / 10 < n := Nat.div_lt_self (by omega) (by omega)
        omega
      have ih := natDecAux_foldl fuel (n / 10) hdiv
      simp only [natDecAux, if_neg hn]
      rw [List.foldl_append, ih]
      simp only [List.foldl]
      have h10 : 48 + n % 10 - 48 = n % 10 := by omega
      rw [h10]
      omega

/-- Parsing back the decimal bytes of `n` yields `n`. -/
theorem decDigits_natToDecimal (n : Nat) : decDigits? (natToDecimal n) = some n := by
  unfold decDigits?
  rw [if_neg (show ¬natToDecimal n = [] from natDecAux_ne_nil n n)]
  have hall : (natToDecimal n).all isDigitB = true := by
    rw [List.all_eq_true]
    intro b hb
    have := natDecAux_digits n n b hb
    simp [isDigitB]
    omega
  rw [if_pos hall,
    show (natToDecimal n).foldl (fun acc b => acc * 10 + (b - 48)) 0 = n from
      natDecAux_foldl n n (le_refl n)]

/-- The decimal bytes of `n` contain no carriage return, hence no `\r\n`
window. -/
theorem noCRLF_natToDecimal (n : Nat) : noCRLF (natToDecimal n) = true := by
  apply noCRLF_of_no13
  intro b hb
  have := natDecAux_digits n n b hb
  omega

/-- `usize` parsing of the decimal bytes of `n` yields `n` (the leading
byte is a digit, not a sign). -/
theorem decToNat_natToDecimal (n : Nat) : decToNat? (natToDecimal n) = some n := by
  have hroot := decDigits_natToDecimal n
  cases hd : natToDecimal n with
  | nil => exact absurd hd (show natToDecimal n ≠ [] from natDecAux_ne_nil n n)
  | cons b bs =>
    have hb : 48 ≤ b ∧ b ≤ 57 :=
      natDecAux_digits n n b
        (show b ∈ natDecAux n n by rw [show natDecAux n n = b :: bs from hd]; simp)
    rw [hd] at hroot
    simp only [decToNat?]
    rw [if_neg (by omega : ¬b = 43)]
    exact hroot

/-- `i64` parsing of the decimal bytes of `n` yields `n`. -/
theorem decToInt_natToDecimal (n : Nat) : decToInt? (natToDecimal n) = some (n : Int) := by
  have hroot := decDigits_natToDecimal n
  cases hd : natToDecimal n with
  | nil => exact absurd hd (show natToDecimal n ≠ [] from natDecAux_ne_nil n n)
  | cons b bs =>
    have hb : 48 ≤ b ∧ b ≤ 57 :=
      natDecAux_digits n n b
        (show b ∈ natDecAux n n by rw [show natDecAux n n = b :: bs from hd]; simp)
    rw [hd] at hroot
    simp only [decToInt?]
    rw [if_neg (by omega : ¬b = 43), if_neg (by omega : ¬b = 45), hroot]
    rfl

mutual

/-- Rust's documented contract of `Frame::len`: it is the length of the
byte string `Frame::serialize` emits. -/
theorem serialize_length : ∀ (f : Frame), (Frame.serialize f).length = Frame.len f
  | .Nil => rfl
  | .SimpleString s => by simp [Frame.serialize, Frame.len]
  | .Error s => by simp [Frame.serialize, Frame.len]
  | .Integer i => by simp [Frame.serialize, Frame.len]
  | .BulkString s => by simp [Frame.serialize, Frame.len]; omega
  | .Array v => by
    have ih := serializeList_length v
    simp [Frame.serialize, Frame.len, ih]
    omega

/-- List version of `serialize_length` for array elements. -/
theorem serializeList_length :
    ∀ (l : List Frame), (Frame.serializeList l).length = Frame.lenList l
  | [] => rfl
  | f :: fs => by
    have ih1 := serialize_length f
    have ih2 := serializeList_length fs
    simp [Frame.serializeList, Frame.lenList, ih1, ih2]

end

/-- Serializations are never empty. -/
theorem serialize_ne_nil (f : Frame) : Frame.serialize f ≠ [] := by
  cases f <;> simp [Frame.serialize]

/-- Every frame spans at least three wire bytes. -/
theorem three_le_len (f : Frame) : 3 ≤ Frame.len f := by
  cases f <;> simp [Frame.len] <;> omega

/-- Empty input is `Incomplete` at positive fuel. -/
theorem fromBytesF_nil (g : Nat) : fromBytesF (g + 1) [] = .err .FrameIncomplete := rfl

/-- Bulk-string branch, happy path: both `\r\n` scans succeed and the
second lands exactly at the announced length. -/
theorem fromBytesF_bulk_ok (g : Nat) (rest : List Nat) (idx num : Nat)
    (h1 : indexOfCRLF rest = some idx) (h2 : decToNat? (rest.take idx) = some num)
    (h3 : indexOfCRLF (rest.drop (idx + 2)) = some num) :
    fromBytesF (g + 1) (36 :: rest) = .ok (.BulkString ((rest.drop (idx + 2)).take num)) := by
  simp [fromBytesF, h1, h2, h3]

/-- Bulk-string branch: no `\r\n` after the type byte. -/
theorem fromBytesF_bulk_incomplete1 (g : Nat) (rest : List Nat)
    (h1 : indexOfCRLF rest = none) :
    fromBytesF (g + 1) (36 :: rest) = .err .FrameIncomplete := by
  simp [fromBytesF, h1]

/-- Bulk-string branch: length parsed but no second `\r\n` yet. -/
theorem fromBytesF_bulk_incomplete2 (g : Nat) (rest : List Nat) (idx num : Nat)
    (h1 : indexOfCRLF rest = some idx) (h2 : decToNat? (rest.take idx) = some num)
    (h3 : indexOfCRLF (rest.drop (idx + 2)) = none) :
    fromBytesF (g + 1) (36 :: rest) = .err .FrameIncomplete := by
  simp [fromBytesF, h1, h2, h3]

/-- Array branch: count parsed, control passes to the element loop. -/
theorem fromBytesF_array_step (g : Nat) (rest : List Nat) (idx : Nat) (c : Int)
    (h1 : indexOfCRLF rest = some idx) (h2 : decToInt? (rest.take idx) = some c) :
    fromBytesF (g + 1) (42 :: rest) = parseElemsF g c.toNat (rest.drop (idx + 2)) [] := by
  simp [fromBytesF, h1, h2]

/-- Array branch: no `\r\n` after the type byte. -/
theorem fromBytesF_array_incomplete (g : Nat) (rest : List Nat)
    (h1 : indexOfCRLF rest = none) :
    fromBytesF (g + 1) (42 :: rest) = .err .FrameIncomplete := by
  simp [fromBytesF, h1]

/-- Element loop: a parsed element advances the slice by its `len`. -/
theorem parseElemsF_step (g n : Nat) (data : List Nat) (acc : List Frame) (f : Frame)
    (h : fromBytesF g data = .ok f) (hlen : ¬data.length < f.len) :
    parseElemsF (g + 1) (n + 1) data acc = parseElemsF g n (data.drop f.len) (f :: acc) := by
  simp [parseElemsF, h, hlen]

/-- Element loop: a failed element parse propagates. -/
theorem parseElemsF_err (g n : Nat) (data : List Nat) (acc : List Frame) (e : RedisErr)
    (h : fromBytesF g data = .err e) :
    parseElemsF (g + 1) (n + 1) data acc = .err e := by
  simp [parseElemsF, h]

/-- Element loop: count exhausted. -/
theorem parseElemsF_done (g : Nat) (data : List Nat) (acc : List Frame) :
    parseElemsF (g + 1) 0 data acc = .ok (.Array acc.reverse) := rfl

/-- A CRLF-free bulk string parses back exactly, with any trailing
bytes. -/
theorem bulk_parses_exact (b : Str) (hb : noCRLF b = true) :
    ParsesExact (.BulkString b) := by
  intro t fu hfu
  cases fu with
  | zero => omega
  | succ g =>
    have hshape : Frame.serialize (.BulkString b) ++ t
        = 36 :: (natToDecimal b.length ++ 13 :: 10 :: (b ++ 13 :: 10 :: t)) := by
      simp [Frame.serialize]
    rw [hshape]
    have h1 : indexOfCRLF (natToDecimal b.length ++ 13 :: 10 :: (b ++ 13 :: 10 :: t))
        = some (natToDecimal b.length).length :=
      indexOfCRLF_append_crlf _ (noCRLF_natToDecimal _) _
    have h2 : decToNat? ((natToDecimal b.length ++ 13 :: 10 :: (b ++ 13 :: 10 :: t)).take
        (natToDecimal b.length).length) = some b.length := by
      rw [List.take_left]
      exact decToNat_natToDecimal _
    have hdrop : (natToDecimal b.length ++ 13 :: 10 :: (b ++ 13 :: 10 :: t)).drop
        ((natToDecimal b.length).length + 2) = b ++ 13 :: 10 :: t := by
      have hsp : natToDecimal b.length ++ 13 :: 10 :: (b ++ 13 :: 10 :: t)
          = (natToDecimal b.length ++ [13, 10]) ++ (b ++ 13 :: 10 :: t) := by simp
      have hl2 : (natToDecimal b.length).length + 2
          = (natToDecimal b.length ++ [13, 10]).length := by simp
      rw [hsp, hl2, List.drop_left]
    have h3 : indexOfCRLF ((natToDecimal b.length ++ 13 :: 10 :: (b ++ 13 :: 10 :: t)).drop
        ((natToDecimal b.length).length + 2)) = some b.length := by
      rw [hdrop]
      exact indexOfCRLF_append_crlf b hb t
    rw [fromBytesF_bulk_ok g _ _ _ h1 h2 h3, hdrop, List.take_left]

/-- Every strict front part of a CRLF-free bulk string's wire form is
`Incomplete`. -/
theorem bulk_take_incomplete (b : Str) (hb : noCRLF b = true) :
    TakeIncomplete (.BulkString b) := by
  intro k fu hk hfu
  cases fu with
  | zero => omega
  | succ g =>
    have hslen : (Frame.serialize (.BulkString b)).length
        = (natToDecimal b.length).length + b.length + 5 := by
      simp [Frame.serialize]
      omega
    cases k with
    | zero =>
      rw [List.take_zero]
      exact fromBytesF_nil g
    | succ k1 =>
      have hshape : Frame.serialize (.BulkString b)
          = 36 :: (natToDecimal b.length ++ 13 :: 10 :: (b ++ [13, 10])) := by
        simp [Frame.serialize]
      rw [hshape, List.take_succ_cons]
      have hfull : indexOfCRLF (natToDecimal b.length ++ 13 :: 10 :: (b ++ [13, 10]))
          = some (natToDecimal b.length).length :=
        indexOfCRLF_append_crlf _ (noCRLF_natToDecimal _) _
      by_cases hcase : k1 ≤ (natToDecimal b.length).length + 1
      · have h1 : indexOfCRLF ((natToDecimal b.length ++ 13 :: 10 :: (b ++ [13, 10])).take k1)
            = none :=
          indexOfCRLF_take_none _ (natToDecimal b.length).length k1 hfull hcase
        exact fromBytesF_bulk_incomplete1 g _ h1
      · push_neg at hcase
        have hsp : natToDecimal b.length ++ 13 :: 10 :: (b ++ [13, 10])
            = (natToDecimal b.length ++ [13, 10]) ++ (b ++ [13, 10]) := by simp
        have htk : (natToDecimal b.length ++ 13 :: 10 :: (b ++ [13, 10])).take k1
            = natToDecimal b.length ++ 13 :: 10 ::
                ((b ++ [13, 10]).take (k1 - ((natToDecimal b.length).length + 2))) := by
          rw [hsp, List.take_append_eq_append_take,
            List.take_of_length_le (by simp; omega)]
          simp
        rw [htk]
        have h1 : indexOfCRLF (natToDecimal b.length ++ 13 :: 10 ::
            ((b ++ [13, 10]).take (k1 - ((natToDecimal b.length).length + 2))))
            = some (natToDecimal b.length).length :=
          indexOfCRLF_append_crlf _ (noCRLF_natToDecimal _) _
        have h2 : decToNat? ((natToDecimal b.length ++ 13 :: 10 ::
            ((b ++ [13, 10]).take (k1 - ((natToDecimal b.length).length + 2)))).take
            (natToDecimal b.length).length) = some b.length := by
          rw [List.take_left]
          exact decToNat_natToDecimal _
        have hdropm : (natToDecimal b.length ++ 13 :: 10 ::
            ((b ++ [13, 10]).take (k1 - ((natToDecimal b.length).length + 2)))).drop
            ((natToDecimal b.length).length + 2)
            = (b ++ [13, 10]).take (k1 - ((natToDecimal b.length).length + 2)) := by
          have hsp2 : natToDecimal b.length ++ 13 :: 10 ::
              ((b ++ [13, 10]).take (k1 - ((natToDecimal b.length).length + 2)))
              = (natToDecimal b.length ++ [13, 10]) ++
                ((b ++ [13, 10]).take (k1 - ((natToDecimal b.length).length + 2))) := by
            simp
          have hl2 : (natToDecimal b.length).length + 2
              = (natToDecimal b.length ++ [13, 10]).length := by simp
          rw [hsp2, hl2, List.drop_left]
        have hbfull : indexOfCRLF (b ++ [13, 10]) = some b.length := by
          have : b ++ [13, 10] = b ++ 13 :: 10 :: ([] : List Nat) := by simp
          rw [this]
          exact indexOfCRLF_append_crlf b hb []
        have h3 : indexOfCRLF ((natToDecimal b.length ++ 13 :: 10 ::
            ((b ++ [13, 10]).take (k1 - ((natToDecimal b.length).length + 2)))).drop
            ((natToDecimal b.length).length + 2)) = none := by
          rw [hdropm]
          apply indexOfCRLF_take_none _ b.length _ hbfull
          omega
        exact fromBytesF_bulk_incomplete2 g _ (natToDecimal b.length).length b.length h1 h2 h3

/-- If every element parses back exactly, the element loop over the
serialized list (plus any trailing bytes) returns the whole array. -/
theorem parseElems_exact :
    ∀ (l : List Frame), (∀ f ∈ l, ParsesExact f) →
      ∀ (t : List Nat) (fu : Nat) (acc : List Frame),
        (Frame.serializeList l ++ t).length + 2 ≤ fu →
        parseElemsF fu l.length (Frame.serializeList l ++ t) acc
          = .ok (.Array (acc.reverse ++ l))
  | [], _, t, fu, acc, hfu => by
    cases fu with
    | zero => omega
    | succ g =>
      simp only [List.length_nil]
      rw [parseElemsF_done]
      simp
  | f :: fs, hl, t, fu, acc, hfu => by
    cases fu with
    | zero => omega
    | succ g =>
      have hpos : 0 < (Frame.serialize f).length :=
        List.length_pos.mpr (serialize_ne_nil f)
      have hshape : Frame.serializeList (f :: fs) ++ t
          = Frame.serialize f ++ (Frame.serializeList fs ++ t) := by
        simp [Frame.serializeList]
      have hlen : (Frame.serializeList (f :: fs) ++ t).length
          = (Frame.serialize f).length + (Frame.serializeList fs ++ t).length := by
        rw [hshape]; simp
      rw [hshape]
      simp only [List.length_cons]
      have hok : fromBytesF g (Frame.serialize f ++ (Frame.serializeList fs ++ t))
          = .ok f := by
        apply hl f (by simp)
        simp only [List.length_append] at hfu hlen ⊢
        omega
      have hnl : ¬(Frame.serialize f ++ (Frame.serializeList fs ++ t)).length < f.len := by
        rw [← serialize_length f]
        simp
      rw [parseElemsF_step g fs.length _ acc f hok hnl]
      have hdrop : (Frame.serialize f ++ (Frame.serializeList fs ++ t)).drop f.len
          = Frame.serializeList fs ++ t := by
        rw [← serialize_length f, List.drop_left]
      rw [hdrop]
      rw [parseElems_exact fs (fun x hx => hl x (by simp [hx])) t g (f :: acc)
        (by simp only [List.length_append] at hfu hlen ⊢; omega)]
      simp

/-- If every element parses back exactly and has prefix-incompleteness,
the element loop over a strict front part of the serialized list is
`Incomplete`. -/
theorem parseElems_take :
    ∀ (l : List Frame), (∀ f ∈ l, ParsesExact f ∧ TakeIncomplete f) →
      ∀ (k fu : Nat) (acc : List Frame),
        k < (Frame.serializeList l).length → k + 2 ≤ fu →
        parseElemsF fu l.length ((Frame.serializeList l).take k) acc
          = .err .FrameIncomplete
  | [], _, k, fu, acc, hk, _ => by simp [Frame.serializeList] at hk
  | f :: fs, hl, k, fu, acc, hk, hfu => by
    cases fu with
    | zero => omega
    | succ g =>
      have hpos : 0 < (Frame.serialize f).length :=
        List.length_pos.mpr (serialize_ne_nil f)
      have hshape : Frame.serializeList (f :: fs)
          = Frame.serialize f ++ Frame.serializeList fs := by
        simp [Frame.serializeList]
      have hk' : k < (Frame.serialize f).length + (Frame.serializeList fs).length := by
        rw [hshape] at hk
        simpa using hk
      rw [hshape]
      simp only [List.length_cons]
      by_cases hcase : k < (Frame.serialize f).length
      · have htake : (Frame.serialize f ++ Frame.serializeList fs).take k
            = (Frame.serialize f).take k := by
          rw [List.take_append_eq_append_take]
          have h0 : k - (Frame.serialize f).length = 0 := by omega
          rw [h0]
          simp
        rw [htake]
        have hinc : fromBytesF g ((Frame.serialize f).take k) = .err .FrameIncomplete :=
          (hl f (by simp)).2 k g hcase (by omega)
        exact parseElemsF_err g fs.length _ acc _ hinc
      · push_neg at hcase
        have hm : k - (Frame.serialize f).length < (Frame.serializeList fs).length := by
          omega
        have htake : (Frame.serialize f ++ Frame.serializeList fs).take k
            = Frame.serialize f ++
              ((Frame.serializeList fs).take (k - (Frame.serialize f).length)) := by
          rw [List.take_append_eq_append_take, List.take_of_length_le hcase]
        rw [htake]
        have hok : fromBytesF g (Frame.serialize f ++
            ((Frame.serializeList fs).take (k - (Frame.serialize f).length))) = .ok f := by
          apply (hl f (by simp)).1
          simp only [List.length_append, List.length_take]
          omega
        have hnl : ¬(Frame.serialize f ++
            ((Frame.serializeList fs).take (k - (Frame.serialize f).length))).length
            < f.len := by
          rw [← serialize_length f]
          simp
        rw [parseElemsF_step g fs.length _ acc f hok hnl]
        have hdrop : (Frame.serialize f ++
            ((Frame.serializeList fs).take (k - (Frame.serialize f).length))).drop f.len
            = (Frame.serializeList fs).take (k - (Frame.serialize f).length) := by
          rw [← serialize_length f, List.drop_left]
        rw [hdrop]
        exact parseElems_take fs (fun x hx => hl x (by simp [hx]))
          (k - (Frame.serialize f).length) g (f :: acc) hm (by omega)

/-- Every wire-safe frame parses back exactly (under any trailing bytes)
and is `Incomplete` on every strict front part of its serialization. -/
theorem bulkSafe_parse : ∀ (f : Frame), BulkSafe f → ParsesExact f ∧ TakeIncomplete f := by
  intro f hf
  induction hf with
  | bulk b hb => exact ⟨bulk_parses_exact b hb, bulk_take_incomplete b hb⟩
  | arr l hl ih =>
    have hcpos : 0 < (natToDecimal l.length).length :=
      List.length_pos.mpr (natDecAux_ne_nil _ _)
    constructor
    · intro t fu hfu
      cases fu with
      | zero => omega
      | succ g =>
        have hshape : Frame.serialize (.Array l) ++ t
            = 42 :: (natToDecimal l.length ++ 13 :: 10 :: (Frame.serializeList l ++ t)) := by
          simp [Frame.serialize]
        have hlen : (Frame.serialize (.Array l) ++ t).length
            = (natToDecimal l.length).length + (Frame.serializeList l).length
              + t.length + 3 := by
          rw [hshape]
          simp
          omega
        rw [hshape]
        have h1 : indexOfCRLF (natToDecimal l.length ++ 13 :: 10 ::
            (Frame.serializeList l ++ t)) = some (natToDecimal l.length).length :=
          indexOfCRLF_append_crlf _ (noCRLF_natToDecimal _) _
        have h2 : decToInt? ((natToDecimal l.length ++ 13 :: 10 ::
            (Frame.serializeList l ++ t)).take (natToDecimal l.length).length)
            = some (l.length : Int) := by
          rw [List.take_left]
          exact decToInt_natToDecimal _
        rw [fromBytesF_array_step g _ _ _ h1 h2]
        have hdrop : (natToDecimal l.length ++ 13 :: 10 ::
            (Frame.serializeList l ++ t)).drop ((natToDecimal l.length).length + 2)
            = Frame.serializeList l ++ t := by
          have hsp : natToDecimal l.length ++ 13 :: 10 :: (Frame.serializeList l ++ t)
              = (natToDecimal l.length ++ [13, 10]) ++ (Frame.serializeList l ++ t) := by
            simp
          have hl2 : (natToDecimal l.length).length + 2
              = (natToDecimal l.length ++ [13, 10]).length := by simp
          rw [hsp, hl2, List.drop_left]
        rw [hdrop]
        have htoNat : ((l.length : Int)).toNat = l.length := by simp
        rw [htoNat]
        rw [parseElems_exact l (fun x hx => (ih x hx).1) t g []
          (by simp only [List.length_append] at hfu hlen ⊢; omega)]
        simp
    · intro k fu hk hfu
      cases fu with
      | zero => omega
      | succ g =>
        have hslen : (Frame.serialize (.Array l)).length
            = (natToDecimal l.length).length + (Frame.serializeList l).length + 3 := by
          simp [Frame.serialize]
          omega
        cases k with
        | zero =>
          rw [List.take_zero]
          exact fromBytesF_nil g
        | succ k1 =>
          have hshape : Frame.serialize (.Array l)
              = 42 :: (natToDecimal l.length ++ 13 :: 10 :: Frame.serializeList l) := by
            simp [Frame.serialize]
          rw [hshape, List.take_succ_cons]
          have hfull : indexOfCRLF (natToDecimal l.length ++ 13 :: 10 ::
              Frame.serializeList l) = some (natToDecimal l.length).length :=
            indexOfCRLF_append_crlf _ (noCRLF_natToDecimal _) _
          by_cases hcase : k1 ≤ (natToDecimal l.length).length + 1
          · exact fromBytesF_array_incomplete g _
              (indexOfCRLF_take_none _ _ k1 hfull hcase)
          · push_neg at hcase
            have htk : (natToDecimal l.length ++ 13 :: 10 :: Frame.serializeList l).take k1
                = natToDecimal l.length ++ 13 :: 10 ::
                  ((Frame.serializeList l).take
                    (k1 - ((natToDecimal l.length).length + 2))) := by
              have hsp : natToDecimal l.length ++ 13 :: 10 :: Frame.serializeList l
                  = (natToDecimal l.length ++ [13, 10]) ++ Frame.serializeList l := by
                simp
              rw [hsp, List.take_append_eq_append_take,
                List.take_of_length_le (by simp; omega)]
              simp
            rw [htk]
            have h1 : indexOfCRLF (natToDecimal l.length ++ 13 :: 10 ::
                ((Frame.serializeList l).take
                  (k1 - ((natToDecimal l.length).length + 2))))
                = some (natToDecimal l.length).length :=
              indexOfCRLF_append_crlf _ (noCRLF_natToDecimal _) _
            have h2 : decToInt? ((natToDecimal l.length ++ 13 :: 10 ::
                ((Frame.serializeList l).take
                  (k1 - ((natToDecimal l.length).length + 2)))).take
                (natToDecimal l.length).length) = some (l.length : Int) := by
              rw [List.take_left]
              exact decToInt_natToDecimal _
            rw [fromBytesF_array_step g _ _ _ h1 h2]
            have hdrop : (natToDecimal l.length ++ 13 :: 10 ::
                ((Frame.serializeList l).take
                  (k1 - ((natToDecimal l.length).length + 2)))).drop
                ((natToDecimal l.length).length + 2)
                = (Frame.serializeList l).take
                  (k1 - ((natToDecimal l.length).length + 2)) := by
              have hsp : natToDecimal l.length ++ 13 :: 10 ::
                  ((Frame.serializeList l).take
                    (k1 - ((natToDecimal l.length).length + 2)))
                  = (natToDecimal l.length ++ [13, 10]) ++
                    ((Frame.serializeList l).take
                      (k1 - ((natToDecimal l.length).length + 2))) := by
                simp
              have hl2 : (natToDecimal l.length).length + 2
                  = (natToDecimal l.length ++ [13, 10]).length := by simp
              rw [hsp, hl2, List.drop_left]
            rw [hdrop]
            have htoNat : ((l.length : Int)).toNat = l.length := by simp
            rw [htoNat]
            exact parseElems_take l (fun x hx => ih x hx)
              (k1 - ((natToDecimal l.length).length + 2)) g [] (by omega) (by omega)

/-- C8 amended: the claim's universal statement fails (see the
counterexample), but it holds on the frame shapes RESP clients actually
send — CRLF-free bulk strings and arbitrarily nested arrays of them:
every such frame's serialization parses back completely, and every strict
front part of it parses as `Incomplete`, never `Malformed` and never a
successful parse. -/
theorem c8_amended_bulksafe (f : Frame) (hf : BulkSafe f) :
    Frame.from_bytes (Frame.serialize f) = .ok f ∧
    ∀ k, k < (Frame.serialize f).length →
      Frame.from_bytes ((Frame.serialize f).take k) = .err .FrameIncomplete := by
  have h := bulkSafe_parse f hf
  constructor
  · have hx := h.1 [] ((Frame.serialize f).length + 1) (by simp)
    simpa [Frame.from_bytes] using hx
  · intro k hk
    have hlen : ((Frame.serialize f).take k).length = k := by
      rw [List.length_take]
      omega
    have hx := h.2 k (k + 1) hk (le_refl _)
    rw [Frame.from_bytes, hlen]
    exact hx

/-- C8 amended, witness: the array frame `["a"]` (wire form
`*1\r\n$1\r\na\r\n`) parses back completely, and its 5-byte front part
`*1\r\n$` parses as `Incomplete`. -/
theorem c8_amended_bulksafe_witness :
    Frame.from_bytes (Frame.serialize (.Array [.BulkString [97]]))
      = .ok (.Array [.BulkString [97]]) ∧
    Frame.from_bytes ((Frame.serialize (.Array [.BulkString [97]])).take 5)
      = .err .FrameIncomplete := by
  have hf : BulkSafe (.Array [.BulkString [97]]) := by
    apply BulkSafe.arr
    intro f hfm
    simp at hfm
    subst hfm
    exact BulkSafe.bulk [97] (by rfl)
  exact ⟨(c8_amended_bulksafe _ hf).1,
    (c8_amended_bulksafe _ hf).2 5 (by decide)⟩

end Redis
